import Mathlib

/-!
Verification development for the Bible-Verses repository (`src/Bibleverse.py`).

The file embeds, as executable Lean definitions, the pieces of the program the
claims are about:

* a model of Python's `json.loads` (a recursive-descent JSON parser over
  `List Char`, faithful to the CPython `json` decoder in strict mode:
  surrounding whitespace `' '`, `'\t'`, `'\n'`, `'\r'` is skipped, objects,
  arrays, strings with escapes, numbers kept as their lexemes, the literals
  `true`/`false`/`null` and the CPython extensions `NaN`, `Infinity`,
  `-Infinity`, raw control characters below `0x20` rejected inside strings);
* the response-parsing path of `get_spiritual_content` (lines 65-78):
  `strip()`, removal of a leading `'```json'` marker and a trailing `'```'`
  marker, `json.loads`, and the static fallback record on any failure;
* the prompt construction of `get_spiritual_content` (lines 46-60) with
  Python truthiness for the optional preference arguments;
* `load_preferences` / `save_preferences` (lines 82-87) over a model of the
  single `st.session_state["preferences"]` slot;
* the outbound-call structure of `get_spiritual_content` (line 62), with the
  external generative API modelled as a sequence of prepared outcomes that is
  consumed one outcome per call.
-/

namespace BibleVerse

/-- JSON values as produced by `json.loads`.  Numbers are kept as their
matched lexeme (their numeric/IEEE interpretation plays no role in any claim);
objects keep their key/value pairs in parse order (the claims only concern
duplicate-free objects, where this coincides with Python's dict). -/
inductive J where
  | null : J
  | bool (b : Bool) : J
  | num (lexeme : String) : J
  | str (s : String) : J
  | arr (elems : List J) : J
  | obj (kvs : List (String × J)) : J
  deriving Repr

/-- The whitespace characters skipped by the CPython `json` decoder
(`[ \t\n\r]`).  Python's `str.strip()` additionally strips `\x0b`, `\x0c` and
Unicode spaces; no JSON token can start or end with those, and no claim input
contains them, so both strips are modelled over this common set. -/
def isJsonWs (c : Char) : Bool :=
  c = ' ' || c = '\t' || c = '\n' || c = '\r'

/-- Skip leading JSON whitespace. -/
def skipWs (l : List Char) : List Char := l.dropWhile isJsonWs

/-- Strip JSON whitespace from both ends (models both `str.strip()` and the
decoder's treatment of surrounding whitespace, see `isJsonWs`). -/
def stripWs (l : List Char) : List Char :=
  (l.dropWhile isJsonWs).rdropWhile isJsonWs

/-- Value of a hexadecimal digit, as accepted in a `\uXXXX` escape. -/
def hexVal (c : Char) : Option Nat :=
  if '0' ≤ c ∧ c ≤ '9' then some (c.toNat - '0'.toNat)
  else if 'a' ≤ c ∧ c ≤ 'f' then some (c.toNat - 'a'.toNat + 10)
  else if 'A' ≤ c ∧ c ≤ 'F' then some (c.toNat - 'A'.toNat + 10)
  else none

/-- Read exactly four hex digits (the `XXXX` of a `\uXXXX` escape). -/
def readHex4 (l : List Char) : Option (Nat × List Char) :=
  match l with
  | a :: b :: c :: d :: rest =>
    match hexVal a, hexVal b, hexVal c, hexVal d with
    | some x, some y, some z, some w => some (((x * 16 + y) * 16 + z) * 16 + w, rest)
    | _, _, _, _ => none
  | _ => none

/-- Body of a JSON string after the opening quote: returns the decoded
characters and the input remaining after the closing quote.  Matches the
CPython decoder in strict mode: the escapes `\" \\ \/ \b \f \n \r \t \uXXXX`,
surrogate pairs combined, raw control characters below `0x20` rejected.
(A lone surrogate, which Python keeps as an unpaired code unit, is not
representable as a Lean `Char` and decodes to `Char.ofNat` of its code,
i.e. `'\0'`; no claim involves one.) -/
def parseStringBody (fuel : Nat) (l : List Char) : Option (List Char × List Char) :=
  match fuel with
  | 0 => none
  | fuel + 1 =>
    match l with
    | [] => none
    | c :: cs =>
      if c = '"' then some ([], cs)
      else if c = '\\' then
        match cs with
        | [] => none
        | e :: es =>
          if e = '"' then (parseStringBody fuel es).map (fun p => ('"' :: p.1, p.2))
          else if e = '\\' then (parseStringBody fuel es).map (fun p => ('\\' :: p.1, p.2))
          else if e = '/' then (parseStringBody fuel es).map (fun p => ('/' :: p.1, p.2))
          else if e = 'b' then (parseStringBody fuel es).map (fun p => ('\x08' :: p.1, p.2))
          else if e = 'f' then (parseStringBody fuel es).map (fun p => ('\x0c' :: p.1, p.2))
          else if e = 'n' then (parseStringBody fuel es).map (fun p => ('\n' :: p.1, p.2))
          else if e = 'r' then (parseStringBody fuel es).map (fun p => ('\r' :: p.1, p.2))
          else if e = 't' then (parseStringBody fuel es).map (fun p => ('\t' :: p.1, p.2))
          else if e = 'u' then
            match readHex4 es with
            | none => none
            | some (n, rest) =>
              if 0xD800 ≤ n ∧ n ≤ 0xDBFF then
                match rest with
                | '\\' :: 'u' :: rest2 =>
                  match readHex4 rest2 with
                  | some (m, rest3) =>
                    if 0xDC00 ≤ m ∧ m ≤ 0xDFFF then
                      (parseStringBody fuel rest3).map
                        (fun p => (Char.ofNat (0x10000 + (n - 0xD800) * 0x400 + (m - 0xDC00)) :: p.1, p.2))
                    else (parseStringBody fuel rest).map (fun p => (Char.ofNat n :: p.1, p.2))
                  | none => (parseStringBody fuel rest).map (fun p => (Char.ofNat n :: p.1, p.2))
                | _ => (parseStringBody fuel rest).map (fun p => (Char.ofNat n :: p.1, p.2))
              else (parseStringBody fuel rest).map (fun p => (Char.ofNat n :: p.1, p.2))
          else none
      else if c.toNat < 0x20 then none
      else (parseStringBody fuel cs).map (fun p => (c :: p.1, p.2))

/-- Longest leading run of decimal digits, and the rest. -/
def digitSpan (l : List Char) : List Char × List Char :=
  (l.takeWhile Char.isDigit, l.dropWhile Char.isDigit)

/-- Integer part of a JSON number: `0`, or a nonzero digit followed by digits
(leading zeros are not part of the number, as in the CPython regex). -/
def parseIntPart (l : List Char) : Option (List Char × List Char) :=
  match l with
  | [] => none
  | c :: rest =>
    if c = '0' then some (['0'], rest)
    else if c.isDigit then
      some (c :: (digitSpan rest).1, (digitSpan rest).2)
    else none

/-- Optional fraction part `.digits` of a JSON number (empty if absent). -/
def parseFracPart (l : List Char) : List Char × List Char :=
  match l with
  | '.' :: rest =>
    if (digitSpan rest).1.isEmpty then ([], l)
    else ('.' :: (digitSpan rest).1, (digitSpan rest).2)
  | _ => ([], l)

/-- Optional exponent part `[eE][+-]?digits` of a JSON number (empty if
absent or malformed, in which case nothing is consumed, as with the regex). -/
def parseExpPart (l : List Char) : List Char × List Char :=
  match l with
  | c :: s :: rest =>
    if c = 'e' ∨ c = 'E' then
      if s = '+' ∨ s = '-' then
        if (digitSpan rest).1.isEmpty then ([], l)
        else (c :: s :: (digitSpan rest).1, (digitSpan rest).2)
      else
        if (digitSpan (s :: rest)).1.isEmpty then ([], l)
        else (c :: (digitSpan (s :: rest)).1, (digitSpan (s :: rest)).2)
    else ([], l)
  | [c] =>
    -- a final lone `e`/`E` has no digits, so no exponent is consumed
    ([], [c])
  | [] => ([], [])

/-- A JSON number: optional minus, integer part, optional fraction and
exponent.  Returns the matched lexeme and the rest. -/
def parseNumber (l : List Char) : Option (List Char × List Char) :=
  match l with
  | '-' :: l1 =>
    match parseIntPart l1 with
    | some (ip, l2) =>
      some ('-' :: ip ++ (parseFracPart l2).1 ++ (parseExpPart (parseFracPart l2).2).1,
            (parseExpPart (parseFracPart l2).2).2)
    | none => none
  | _ =>
    match parseIntPart l with
    | some (ip, l2) =>
      some (ip ++ (parseFracPart l2).1 ++ (parseExpPart (parseFracPart l2).2).1,
            (parseExpPart (parseFracPart l2).2).2)
    | none => none

mutual

/-- One JSON value starting at the head of the input (no leading whitespace),
returning the value and the remaining input. -/
def parseValue (fuel : Nat) (l : List Char) : Option (J × List Char) :=
  match fuel with
  | 0 => none
  | fuel + 1 =>
    match l with
    | [] => none
    | c :: cs =>
      if c = '{' then
        match parseMembersStart fuel cs with
        | some (kvs, r) => some (J.obj kvs, r)
        | none => none
      else if c = '[' then
        match parseElemsStart fuel cs with
        | some (es, r) => some (J.arr es, r)
        | none => none
      else if c = '"' then
        match parseStringBody (cs.length + 1) cs with
        | some (s, r) => some (J.str (String.mk s), r)
        | none => none
      else if c = 't' then
        if cs.take 3 = ['r', 'u', 'e'] then some (J.bool true, cs.drop 3) else none
      else if c = 'f' then
        if cs.take 4 = ['a', 'l', 's', 'e'] then some (J.bool false, cs.drop 4) else none
      else if c = 'n' then
        if cs.take 3 = ['u', 'l', 'l'] then some (J.null, cs.drop 3) else none
      else if c = 'N' then
        if cs.take 2 = ['a', 'N'] then some (J.num "NaN", cs.drop 2) else none
      else if c = 'I' then
        if cs.take 7 = ['n', 'f', 'i', 'n', 'i', 't', 'y'] then
          some (J.num "Infinity", cs.drop 7)
        else none
      else if c = '-' ∧ cs.take 8 = ['I', 'n', 'f', 'i', 'n', 'i', 't', 'y'] then
        some (J.num "-Infinity", cs.drop 8)
      else if c = '-' ∨ c.isDigit then
        match parseNumber l with
        | some (lx, r) => some (J.num (String.mk lx), r)
        | none => none
      else none

/-- Inside an object, just after the `{`: skip whitespace, then either an
immediate `}` (empty object) or a nonempty member list. -/
def parseMembersStart (fuel : Nat) (l : List Char) : Option (List (String × J) × List Char) :=
  match fuel with
  | 0 => none
  | fuel + 1 =>
    match skipWs l with
    | '}' :: r => some ([], r)
    | t => parseMembers fuel t

/-- One or more `"key": value` members, positioned at the opening quote of a
key (whitespace already skipped), up to and including the closing `}`. -/
def parseMembers (fuel : Nat) (l : List Char) : Option (List (String × J) × List Char) :=
  match fuel with
  | 0 => none
  | fuel + 1 =>
    match l with
    | '"' :: cs =>
      match parseStringBody (cs.length + 1) cs with
      | some (k, r1) =>
        match skipWs r1 with
        | ':' :: r3 =>
          match parseValue fuel (skipWs r3) with
          | some (v, r4) =>
            match skipWs r4 with
            | ',' :: r6 =>
              match parseMembers fuel (skipWs r6) with
              | some (kvs, r7) => some ((String.mk k, v) :: kvs, r7)
              | none => none
            | '}' :: r6 => some ([(String.mk k, v)], r6)
            | _ => none
          | none => none
        | _ => none
      | none => none
    | _ => none

/-- Inside an array, just after the `[`: skip whitespace, then either an
immediate `]` (empty array) or a nonempty element list. -/
def parseElemsStart (fuel : Nat) (l : List Char) : Option (List J × List Char) :=
  match fuel with
  | 0 => none
  | fuel + 1 =>
    match skipWs l with
    | ']' :: r => some ([], r)
    | t => parseElems fuel t

/-- One or more array elements, positioned at the start of an element
(whitespace already skipped), up to and including the closing `]`. -/
def parseElems (fuel : Nat) (l : List Char) : Option (List J × List Char) :=
  match fuel with
  | 0 => none
  | fuel + 1 =>
    match parseValue fuel l with
    | some (v, r) =>
      match skipWs r with
      | ',' :: r3 =>
        match parseElems fuel (skipWs r3) with
        | some (vs, r4) => some (v :: vs, r4)
        | none => none
      | ']' :: r3 => some ([v], r3)
      | _ => none
    | none => none

end

/-- Model of Python's `json.loads` on a character list: strip surrounding
whitespace, parse exactly one JSON value spanning the rest of the input.
The fuel `3 * length + 3` decreases by at most three per consumed character
along any call chain, so it is never exhausted on well-formed input (CPython
itself raises `RecursionError`, caught by the caller's `except`, on absurdly
deep nesting). -/
def jsonLoads (l : List Char) : Option J :=
  match parseValue (3 * (stripWs l).length + 3) (stripWs l) with
  | some (v, []) => some v
  | _ => none

/-! ## The response-parsing path of `get_spiritual_content` (lines 65-78) -/

/-- The text normalisation of lines 66-70: `text = response.parts[0].text.strip()`,
then `if text.startswith('```json'): text = text[7:]`,
then `if text.endswith('```'): text = text[:-3]`. -/
def stripResponseText (raw : List Char) : List Char :=
  let t1 := stripWs raw
  let t2 := if ("```json".data).isPrefixOf t1 then t1.drop 7 else t1
  if ("```".data).isSuffixOf t2 then t2.take (t2.length - 3) else t2

/-- The `religious_insight` field of the fallback record (line 77). -/
def fallbackInsight (currentDay currentDate : String) : String :=
  "Today is " ++ currentDay ++ ", " ++ currentDate ++
    ". We are reminded of the significance of steadfast faith in navigating life's challenges."

/-- The static fallback record returned by the `except` branch (lines 73-78). -/
def fallbackContent (currentDay currentDate : String) : J :=
  J.obj
    [("daily_verse", J.str "Proverbs 3:5-6 - Trust in the Lord with all your heart and lean not on your own understanding."),
     ("daily_devotional", J.str "In times of uncertainty, remember that faith is your anchor. Reflect on God's unwavering love and guidance."),
     ("prayer_guide", J.str "Heavenly Father, guide my steps and fill my heart with your peace today."),
     ("religious_insight", J.str (fallbackInsight currentDay currentDate))]

/-- The `try`/`except` of lines 65-78 applied to a raw response text: strip
the fences, `json.loads` the result, and on any failure return the static
fallback record.  (Everything inside the `try` — including the
`response.parts[0]` access on a response with no parts — lands in the same
`except Exception` branch, i.e. in the `none` case here.) -/
def parseOrFallback (raw : List Char) (currentDay currentDate : String) : J :=
  match jsonLoads (stripResponseText raw) with
  | some v => v
  | none => fallbackContent currentDay currentDate

/-- Field access on a decoded object, as used by `content.get(key, default)`
in the presentation layer (lines 107-116): `some` value when the key is
present (first occurrence), `none` otherwise or on a non-object. -/
def objLookup (v : J) (key : String) : Option J :=
  match v with
  | J.obj kvs => kvs.lookup key
  | _ => none

/-- The four keys the system instruction requires of the model's JSON
(lines 18-22). -/
def requiredKeys : List String :=
  ["daily_verse", "daily_devotional", "prayer_guide", "religious_insight"]

/-- Whether a decoded value is an object carrying all four required keys
(what the spec calls a fully populated `ContentRecord`). -/
def fullyPopulated (v : J) : Bool :=
  requiredKeys.all fun k => (objLookup v k).isSome

/-! ## The prompt construction of `get_spiritual_content` (lines 46-60) -/

/-- Python truthiness of an optional string argument: `None` and `""` are
falsy, any other string is truthy. -/
def strTruthy (o : Option String) : Bool :=
  match o with
  | none => false
  | some s => !s.isEmpty

/-- Python truthiness of the optional `themes` list: `None` and `[]` are
falsy, any nonempty list is truthy. -/
def listTruthy (o : Option (List String)) : Bool :=
  match o with
  | none => false
  | some l => !l.isEmpty

/-- The prompt string of lines 52-60, with the f-string whitespace kept
verbatim: the generic prompt, overwritten by the personalised prompt when
`denomination or bible_version or themes` is truthy.  `denomination or
'general'`, `bible_version or 'a standard Bible version'` and
`themes or ['general spirituality']` substitute the generic default whenever
the corresponding argument is falsy; `', '.join` is `String.intercalate`. -/
def buildPrompt (denomination bible_version : Option String)
    (themes : Option (List String)) (currentDay currentDate : String) : String :=
  if strTruthy denomination || strTruthy bible_version || listTruthy themes then
    "\n        Generate comprehensive spiritual content for a " ++
      (if strTruthy denomination then denomination.getD "" else "general") ++
      " Christian \n        using " ++
      (if strTruthy bible_version then bible_version.getD "" else "a standard Bible version") ++
      ", focusing on themes: " ++
      String.intercalate ", "
        (if listTruthy themes then themes.getD [] else ["general spirituality"]) ++
      ".\n        Ensure it is aligned with " ++ currentDay ++ ", " ++ currentDate ++
      ".\n        "
  else
    "\n    Generate comprehensive spiritual content for a general Christian audience for " ++
      currentDay ++ ", " ++ currentDate ++ ".\n    "

/-! ## The outbound call (line 62) and the whole of `get_spiritual_content` -/

/-- Outcome of one `spiritual_model.generate_content` call: either a raw
response text (`response.parts[0].text`) or a raised exception (network,
auth, quota — line 62 sits outside the `try`, so these propagate). -/
inductive ApiOutcome where
  | success (text : List Char) : ApiOutcome
  | failure (err : String) : ApiOutcome

/-- The external generative API, modelled as the sequence of outcomes of its
successive invocations. -/
structure ApiState where
  outcomes : List ApiOutcome

/-- One `generate_content` call: consume the next prepared outcome.  (An
exhausted sequence is reported as a failure; the theorems about call counts
hypothesise a nonempty sequence.) -/
def callGenerateContent (st : ApiState) (_prompt : String) : ApiOutcome × ApiState :=
  match st.outcomes with
  | [] => (ApiOutcome.failure "exhausted", ⟨[]⟩)
  | o :: rest => (o, ⟨rest⟩)

/-- `get_spiritual_content` (lines 46-78): build the prompt, make the single
API call (line 62, outside the `try`: a raised failure propagates as
`Except.error`), then parse the response text with fallback.  The current
weekday and date (lines 48-49) are passed in as values of the system clock. -/
def get_spiritual_content (st : ApiState)
    (denomination bible_version : Option String) (themes : Option (List String))
    (currentDay currentDate : String) : Except String J × ApiState :=
  let prompt := buildPrompt denomination bible_version themes currentDay currentDate
  let (resp, st') := callGenerateContent st prompt
  match resp with
  | ApiOutcome.failure e => (Except.error e, st')
  | ApiOutcome.success raw => (Except.ok (parseOrFallback raw currentDay currentDate), st')

/-! ## The preference store (lines 82-87) -/

/-- The `preferences` dictionary kept in `st.session_state` (lines 83, 87, 181). -/
structure Preferences where
  denomination : Option String
  bible_version : Option String
  themes : Option (List String)

/-- The default returned by `st.session_state.get("preferences", {...})` when
nothing has been saved: all three fields `None` (line 83). -/
def defaultPreferences : Preferences :=
  ⟨none, none, none⟩

/-- `load_preferences` (lines 82-83) over a model of the
`st.session_state["preferences"]` slot: the stored value if present,
otherwise the all-`None` default. -/
def load_preferences (session : Option Preferences) : Preferences :=
  session.getD defaultPreferences

/-- `save_preferences` (lines 86-87): overwrite the
`st.session_state["preferences"]` slot with the given value. -/
def save_preferences (preferences : Preferences) (_session : Option Preferences) :
    Option Preferences :=
  some preferences

/-! ## Auxiliary notions used by the theorems -/

/-- `sub` occurs contiguously inside `s` (Python's `sub in s`). -/
def strContains (s sub : String) : Prop :=
  sub.data <:+: s.data

instance (s sub : String) : Decidable (strContains s sub) :=
  List.decidableInfix sub.data s.data

/-- The backtick character, head of both fence markers. -/
def btk : Char := Char.ofNat 96

/-! # Theorems

## General helpers -/

theorem isInfix_append_of {a x : List Char} (y : List Char) (h : a <:+: x) :
    a <:+: x ++ y := by
  obtain ⟨s, t, hst⟩ := h
  exact ⟨s, t ++ y, by rw [← hst]; simp⟩

theorem isInfix_append_left {a y : List Char} (x : List Char) (h : a <:+: y) :
    a <:+: x ++ y := by
  obtain ⟨s, t, hst⟩ := h
  exact ⟨x ++ s, t, by rw [← hst]; simp⟩

theorem isInfix_self_append (a x : List Char) : a <:+: a ++ x :=
  isInfix_append_of x ⟨[], [], by simp⟩

/-! ## The prompt builder (plumbing for C6 and C10) -/

theorem buildPrompt_generic_data (d v : Option String) (th : Option (List String))
    (currentDay currentDate : String)
    (h : (strTruthy d || strTruthy v || listTruthy th) = false) :
    (buildPrompt d v th currentDay currentDate).data =
      "\n    Generate comprehensive spiritual content for a general Christian audience for ".data ++
      currentDay.data ++ ", ".data ++ currentDate.data ++ ".\n    ".data := by
  simp only [buildPrompt, h, Bool.false_eq_true, if_false, String.data_append]

theorem buildPrompt_personalized_data (d v : Option String) (th : Option (List String))
    (currentDay currentDate : String)
    (h : (strTruthy d || strTruthy v || listTruthy th) = true) :
    (buildPrompt d v th currentDay currentDate).data =
      "\n        Generate comprehensive spiritual content for a ".data ++
      (if strTruthy d then d.getD "" else "general").data ++
      " Christian \n        using ".data ++
      (if strTruthy v then v.getD "" else "a standard Bible version").data ++
      ", focusing on themes: ".data ++
      (String.intercalate ", "
        (if listTruthy th then th.getD [] else ["general spirituality"])).data ++
      ".\n        Ensure it is aligned with ".data ++
      currentDay.data ++ ", ".data ++ currentDate.data ++ ".\n        ".data := by
  simp only [buildPrompt, h, if_true, String.data_append]

/-- C6: with no preferences set the Prompt Builder's output contains
"general Christian audience" and the current weekday and date; with any
preference set it contains the provided denomination, Bible version and
comma-joined theme list verbatim, each unset field replaced by its generic
default ("general", "a standard Bible version", "general spirituality"). -/
theorem c6_prompt_builder (currentDay currentDate : String)
    (d v : Option String) (th : Option (List String)) :
    (strContains (buildPrompt none none none currentDay currentDate)
        "general Christian audience" ∧
     strContains (buildPrompt none none none currentDay currentDate) currentDay ∧
     strContains (buildPrompt none none none currentDay currentDate) currentDate) ∧
    ((strTruthy d || strTruthy v || listTruthy th) = true →
      strContains (buildPrompt d v th currentDay currentDate)
        (if strTruthy d then d.getD "" else "general") ∧
      strContains (buildPrompt d v th currentDay currentDate)
        (if strTruthy v then v.getD "" else "a standard Bible version") ∧
      strContains (buildPrompt d v th currentDay currentDate)
        (String.intercalate ", "
          (if listTruthy th then th.getD [] else ["general spirituality"]))) := by
  have hgen := buildPrompt_generic_data none none none currentDay currentDate rfl
  have hsplit :
      "\n    Generate comprehensive spiritual content for a general Christian audience for ".data =
        "\n    Generate comprehensive spiritual content for a ".data ++
        "general Christian audience".data ++ " for ".data := by decide
  refine ⟨⟨?_, ?_, ?_⟩, fun h => ?_⟩
  · unfold strContains
    rw [hgen, hsplit]
    exact ⟨"\n    Generate comprehensive spiritual content for a ".data,
      " for ".data ++ currentDay.data ++ ", ".data ++ currentDate.data ++ ".\n    ".data,
      by simp⟩
  · unfold strContains
    rw [hgen]
    exact ⟨"\n    Generate comprehensive spiritual content for a general Christian audience for ".data,
      ", ".data ++ currentDate.data ++ ".\n    ".data, by simp⟩
  · unfold strContains
    rw [hgen]
    exact ⟨"\n    Generate comprehensive spiritual content for a general Christian audience for ".data ++
        currentDay.data ++ ", ".data, ".\n    ".data, by simp⟩
  · have hper := buildPrompt_personalized_data d v th currentDay currentDate h
    refine ⟨?_, ?_, ?_⟩ <;> unfold strContains <;> rw [hper]
    · exact ⟨"\n        Generate comprehensive spiritual content for a ".data,
        " Christian \n        using ".data ++
          (if strTruthy v then v.getD "" else "a standard Bible version").data ++
          ", focusing on themes: ".data ++
          (String.intercalate ", "
            (if listTruthy th then th.getD [] else ["general spirituality"])).data ++
          ".\n        Ensure it is aligned with ".data ++
          currentDay.data ++ ", ".data ++ currentDate.data ++ ".\n        ".data,
        by simp⟩
    · exact ⟨"\n        Generate comprehensive spiritual content for a ".data ++
          (if strTruthy d then d.getD "" else "general").data ++
          " Christian \n        using ".data,
        ", focusing on themes: ".data ++
          (String.intercalate ", "
            (if listTruthy th then th.getD [] else ["general spirituality"])).data ++
          ".\n        Ensure it is aligned with ".data ++
          currentDay.data ++ ", ".data ++ currentDate.data ++ ".\n        ".data,
        by simp⟩
    · exact ⟨"\n        Generate comprehensive spiritual content for a ".data ++
          (if strTruthy d then d.getD "" else "general").data ++
          " Christian \n        using ".data ++
          (if strTruthy v then v.getD "" else "a standard Bible version").data ++
          ", focusing on themes: ".data,
        ".\n        Ensure it is aligned with ".data ++
          currentDay.data ++ ", ".data ++ currentDate.data ++ ".\n        ".data,
        by simp⟩

/-- C6 witness: the hypothesised (personalised) part of `c6_prompt_builder`
discharged at a concrete call. -/
theorem c6_witness :
    (strTruthy (some "Catholic") || strTruthy (some "KJV") ||
      listTruthy (some ["Hope", "Peace"])) = true ∧
    (strContains
        (buildPrompt (some "Catholic") (some "KJV") (some ["Hope", "Peace"])
          "Monday" "2024-06-03") "Catholic" ∧
      strContains
        (buildPrompt (some "Catholic") (some "KJV") (some ["Hope", "Peace"])
          "Monday" "2024-06-03") "KJV" ∧
      strContains
        (buildPrompt (some "Catholic") (some "KJV") (some ["Hope", "Peace"])
          "Monday" "2024-06-03") "Hope, Peace") := by
  refine ⟨rfl, ?_⟩
  exact (c6_prompt_builder "Monday" "2024-06-03" (some "Catholic") (some "KJV")
    (some ["Hope", "Peace"])).2 rfl

/-- C10: because presence is tested by Python truthiness, all-empty
preferences (empty strings, empty list) produce the identical generic
"general Christian audience" prompt, and an empty theme list in an otherwise
personalised call is replaced by "general spirituality". -/
theorem c10_truthiness_empty_prefs (currentDay currentDate : String)
    (d v : Option String) :
    buildPrompt (some "") (some "") (some []) currentDay currentDate =
      buildPrompt none none none currentDay currentDate ∧
    strContains (buildPrompt none none none currentDay currentDate)
      "general Christian audience" ∧
    ((strTruthy d || strTruthy v) = true →
      strContains (buildPrompt d v (some []) currentDay currentDate)
        "general spirituality") := by
  refine ⟨rfl, ?_, fun h => ?_⟩
  · unfold strContains
    rw [buildPrompt_generic_data none none none currentDay currentDate rfl,
      show
        "\n    Generate comprehensive spiritual content for a general Christian audience for ".data =
          "\n    Generate comprehensive spiritual content for a ".data ++
          "general Christian audience".data ++ " for ".data from by decide]
    exact ⟨"\n    Generate comprehensive spiritual content for a ".data,
      " for ".data ++ currentDay.data ++ ", ".data ++ currentDate.data ++ ".\n    ".data,
      by simp⟩
  · have hcond : (strTruthy d || strTruthy v || listTruthy (some [])) = true := by
      simp only [listTruthy, List.isEmpty_nil, Bool.not_true, Bool.or_false]
      exact h
    have hper := buildPrompt_personalized_data d v (some []) currentDay currentDate hcond
    unfold strContains
    rw [hper,
      show (String.intercalate ", "
          (if listTruthy (some []) then (some ([] : List String)).getD []
           else ["general spirituality"])).data =
        "general spirituality".data from rfl]
    exact ⟨"\n        Generate comprehensive spiritual content for a ".data ++
        (if strTruthy d then d.getD "" else "general").data ++
        " Christian \n        using ".data ++
        (if strTruthy v then v.getD "" else "a standard Bible version").data ++
        ", focusing on themes: ".data,
      ".\n        Ensure it is aligned with ".data ++
        currentDay.data ++ ", ".data ++ currentDate.data ++ ".\n        ".data,
      by simp⟩

/-- C10 witness: the hypothesised part of `c10_truthiness_empty_prefs`
discharged at a concrete personalised call with an empty theme list. -/
theorem c10_witness :
    (strTruthy (some "Baptist") || strTruthy none) = true ∧
    strContains (buildPrompt (some "Baptist") none (some []) "Friday" "2024-06-07")
      "general spirituality" :=
  ⟨rfl, (c10_truthiness_empty_prefs "Friday" "2024-06-07" (some "Baptist") none).2.2 rfl⟩

/-! ## The preference store -/

/-- C7: `save_preferences` followed by `load_preferences` returns exactly the
saved value (save fully replaces the stored slot, whatever it held), and
loading before any save returns the all-unset default. -/
theorem c7_preferences_round_trip (p : Preferences) (session : Option Preferences) :
    load_preferences (save_preferences p session) = p ∧
    load_preferences none = defaultPreferences ∧
    defaultPreferences.denomination = none ∧
    defaultPreferences.bible_version = none ∧
    defaultPreferences.themes = none :=
  ⟨rfl, rfl, rfl, rfl, rfl⟩

/-! ## Failure propagation and call counting -/

/-- C8: a raised API failure propagates out of `get_spiritual_content`
unhandled (the call sits outside the `try`), while a returned response text
never produces an error: the result is always `Except.ok`, with every decode
failure recovered locally into the static fallback record. -/
theorem c8_failure_semantics (st : ApiState) (d v : Option String)
    (th : Option (List String)) (currentDay currentDate : String) :
    (∀ e rest, st.outcomes = ApiOutcome.failure e :: rest →
      (get_spiritual_content st d v th currentDay currentDate).1 = Except.error e) ∧
    (∀ raw rest, st.outcomes = ApiOutcome.success raw :: rest →
      (get_spiritual_content st d v th currentDay currentDate).1 =
        Except.ok (parseOrFallback raw currentDay currentDate)) ∧
    (∀ raw rest, st.outcomes = ApiOutcome.success raw :: rest →
      jsonLoads (stripResponseText raw) = none →
      (get_spiritual_content st d v th currentDay currentDate).1 =
        Except.ok (fallbackContent currentDay currentDate)) := by
  refine ⟨fun e rest h => ?_, fun raw rest h => ?_, fun raw rest h hdec => ?_⟩
  · simp [get_spiritual_content, callGenerateContent, h]
  · simp [get_spiritual_content, callGenerateContent, h]
  · simp [get_spiritual_content, callGenerateContent, h, parseOrFallback, hdec]

/-- C8 witness: `c8_failure_semantics` discharged at two concrete one-call
API states, a quota failure and an undecodable success. -/
theorem c8_witness :
    (get_spiritual_content ⟨[ApiOutcome.failure "quota exceeded"]⟩ none none none
      "Monday" "2024-06-03").1 = Except.error "quota exceeded" ∧
    (get_spiritual_content ⟨[ApiOutcome.success "not json at all".data]⟩ none none none
      "Monday" "2024-06-03").1 =
      Except.ok (fallbackContent "Monday" "2024-06-03") := by
  constructor
  · exact (c8_failure_semantics ⟨[ApiOutcome.failure "quota exceeded"]⟩ none none none
      "Monday" "2024-06-03").1 "quota exceeded" [] rfl
  · exact (c8_failure_semantics ⟨[ApiOutcome.success "not json at all".data]⟩ none none none
      "Monday" "2024-06-03").2.2 "not json at all".data [] rfl rfl

/-- C9: one invocation of `get_spiritual_content` consumes exactly one
prepared API outcome — a single outbound call, no retry — regardless of
whether that outcome is a failure, a decodable success or undecodable text. -/
theorem c9_exactly_one_call (st : ApiState) (d v : Option String)
    (th : Option (List String)) (currentDay currentDate : String) :
    (get_spiritual_content st d v th currentDay currentDate).2.outcomes =
      st.outcomes.tail ∧
    (st.outcomes ≠ [] →
      st.outcomes.length =
        (get_spiritual_content st d v th currentDay currentDate).2.outcomes.length + 1) := by
  obtain ⟨outcomes⟩ := st
  cases outcomes with
  | nil => exact ⟨rfl, fun h => absurd rfl h⟩
  | cons o rest =>
    cases o <;> exact ⟨rfl, fun _ => by simp [get_spiritual_content, callGenerateContent]⟩

/-- C9 witness: `c9_exactly_one_call` discharged at a concrete two-outcome
API state; exactly the first outcome is consumed. -/
theorem c9_witness :
    ([ApiOutcome.failure "quota", ApiOutcome.failure "unreached"] : List ApiOutcome) ≠ [] ∧
    ([ApiOutcome.failure "quota", ApiOutcome.failure "unreached"].length =
      (get_spiritual_content ⟨[ApiOutcome.failure "quota", ApiOutcome.failure "unreached"]⟩
        none none none "Monday" "2024-06-03").2.outcomes.length + 1) :=
  ⟨by simp,
   (c9_exactly_one_call ⟨[ApiOutcome.failure "quota", ApiOutcome.failure "unreached"]⟩
      none none none "Monday" "2024-06-03").2 (by simp)⟩

/-! ## The response parser: C1, C2, C3 and the C5 counterexample -/

/-- C1: whenever the response text (after `strip()` and fence removal)
decodes as a JSON object whose keys are exactly the four required ones, the
parser returns a record holding exactly those four field values, unmodified. -/
theorem c1_parser_returns_fields_unmodified (raw : List Char)
    (currentDay currentDate : String) (kvs : List (String × J))
    (hdec : jsonLoads (stripResponseText raw) = some (J.obj kvs))
    (_hkeys : List.Perm (kvs.map Prod.fst) requiredKeys) :
    parseOrFallback raw currentDay currentDate = J.obj kvs := by
  unfold parseOrFallback
  rw [hdec]

/-- C1 witness: `c1_parser_returns_fields_unmodified` discharged at the
spec's scenario input; the four values come back verbatim. -/
theorem c1_witness :
    jsonLoads (stripResponseText ("\x7b\"daily_verse\":\"John 3:16\",\"daily_devotional\":\"God loves\",\"prayer_guide\":\"Thank you\",\"religious_insight\":\"Grace\"\x7d").data) =
      some (J.obj [("daily_verse", J.str "John 3:16"), ("daily_devotional", J.str "God loves"),
        ("prayer_guide", J.str "Thank you"), ("religious_insight", J.str "Grace")]) ∧
    parseOrFallback ("\x7b\"daily_verse\":\"John 3:16\",\"daily_devotional\":\"God loves\",\"prayer_guide\":\"Thank you\",\"religious_insight\":\"Grace\"\x7d").data
        "Sunday" "2024-06-02" =
      J.obj [("daily_verse", J.str "John 3:16"), ("daily_devotional", J.str "God loves"),
        ("prayer_guide", J.str "Thank you"), ("religious_insight", J.str "Grace")] := by
  refine ⟨rfl, ?_⟩
  exact c1_parser_returns_fields_unmodified _ "Sunday" "2024-06-02" _ rfl (by decide)

/-- C2: whenever the stripped response text is not valid JSON, the parser
returns the fixed fallback record, whose `religious_insight` field contains
the current weekday and current date. -/
theorem c2_invalid_json_fallback (raw : List Char) (currentDay currentDate : String)
    (hdec : jsonLoads (stripResponseText raw) = none) :
    parseOrFallback raw currentDay currentDate = fallbackContent currentDay currentDate ∧
    objLookup (parseOrFallback raw currentDay currentDate) "religious_insight" =
      some (J.str (fallbackInsight currentDay currentDate)) ∧
    strContains (fallbackInsight currentDay currentDate) currentDay ∧
    strContains (fallbackInsight currentDay currentDate) currentDate := by
  have h1 : parseOrFallback raw currentDay currentDate =
      fallbackContent currentDay currentDate := by
    unfold parseOrFallback
    rw [hdec]
  refine ⟨h1, by rw [h1]; rfl, ?_, ?_⟩
  · unfold strContains fallbackInsight
    simp only [String.data_append]
    exact ⟨"Today is ".data,
      ", ".data ++ currentDate.data ++
        ". We are reminded of the significance of steadfast faith in navigating life's challenges.".data,
      by simp⟩
  · unfold strContains fallbackInsight
    simp only [String.data_append]
    exact ⟨"Today is ".data ++ currentDay.data ++ ", ".data,
      ". We are reminded of the significance of steadfast faith in navigating life's challenges.".data,
      by simp⟩

/-- C2 witness: `c2_invalid_json_fallback` discharged at the spec's scenario
input `not json at all`. -/
theorem c2_witness :
    jsonLoads (stripResponseText "not json at all".data) = none ∧
    (parseOrFallback "not json at all".data "Sunday" "2024-06-02" =
        fallbackContent "Sunday" "2024-06-02" ∧
      objLookup (parseOrFallback "not json at all".data "Sunday" "2024-06-02")
          "religious_insight" =
        some (J.str (fallbackInsight "Sunday" "2024-06-02")) ∧
      strContains (fallbackInsight "Sunday" "2024-06-02") "Sunday" ∧
      strContains (fallbackInsight "Sunday" "2024-06-02") "2024-06-02") :=
  ⟨rfl, c2_invalid_json_fallback "not json at all".data "Sunday" "2024-06-02" rfl⟩

/-- C3 counterexample: on input `{"daily_verse":"x"}` the parser returns the
decoded one-field object itself — which is not fully populated — rather than
discarding it for the static fallback, so a decoded record missing required
fields is not replaced by the fallback. -/
theorem c3_counterexample :
    parseOrFallback "\x7b\"daily_verse\":\"x\"\x7d".data "Monday" "2024-06-03" =
      J.obj [("daily_verse", J.str "x")] ∧
    fullyPopulated (parseOrFallback "\x7b\"daily_verse\":\"x\"\x7d".data "Monday" "2024-06-03") =
      false ∧
    parseOrFallback "\x7b\"daily_verse\":\"x\"\x7d".data "Monday" "2024-06-03" ≠
      fallbackContent "Monday" "2024-06-03" := by
  refine ⟨rfl, rfl, fun h => ?_⟩
  have h1 : objLookup (parseOrFallback "\x7b\"daily_verse\":\"x\"\x7d".data "Monday" "2024-06-03")
      "prayer_guide" = none := rfl
  have h2 : objLookup (fallbackContent "Monday" "2024-06-03") "prayer_guide" =
      some (J.str "Heavenly Father, guide my steps and fill my heart with your peace today.") :=
    rfl
  rw [h, h2] at h1
  exact Option.noConfusion h1

/-- C3 amended: the parser's result is the decoded JSON value whenever the
stripped text decodes at all — even when required fields are missing — and
the static fallback record (itself fully populated) only when decoding
fails; full population for display is guaranteed only by the presentation
layer's per-field defaults. -/
theorem c3_amended_parser_output (raw : List Char) (currentDay currentDate : String) :
    parseOrFallback raw currentDay currentDate =
      (jsonLoads (stripResponseText raw)).getD (fallbackContent currentDay currentDate) ∧
    fullyPopulated (fallbackContent currentDay currentDate) = true := by
  constructor
  · unfold parseOrFallback
    cases jsonLoads (stripResponseText raw) <;> rfl
  · rfl

/-- C5 counterexample: a four-field JSON body wrapped in a bare triple-backtick
fence (no `json` language tag) is not decoded: the opening fence is left in
place, decoding fails, and the parser returns the fallback record instead of
the decoded record. -/
theorem c5_counterexample :
    jsonLoads ("\x7b\"daily_verse\":\"a\",\"daily_devotional\":\"b\",\"prayer_guide\":\"c\",\"religious_insight\":\"d\"\x7d").data =
      some (J.obj [("daily_verse", J.str "a"), ("daily_devotional", J.str "b"),
        ("prayer_guide", J.str "c"), ("religious_insight", J.str "d")]) ∧
    parseOrFallback ("```\n\x7b\"daily_verse\":\"a\",\"daily_devotional\":\"b\",\"prayer_guide\":\"c\",\"religious_insight\":\"d\"\x7d\n```").data
        "Monday" "2024-06-03" = fallbackContent "Monday" "2024-06-03" :=
  ⟨rfl, rfl⟩

/-! ## List and whitespace helpers for the fence-stripping analysis -/

theorem dropWhile_head_false {p : Char → Bool} {a : Char} {t : List Char} :
    ∀ l : List Char, l.dropWhile p = a :: t → p a = false := by
  intro l
  induction l with
  | nil => intro h; simp at h
  | cons b l' ih =>
    intro h
    rw [List.dropWhile_cons] at h
    by_cases hb : p b = true
    · rw [if_pos hb] at h
      exact ih h
    · rw [if_neg hb] at h
      cases h
      exact Bool.eq_false_iff.mpr hb

theorem dropWhile_keep_concat {p : Char → Bool} {a : Char} (h : p a = false) :
    ∀ m : List Char, ∃ r, (m ++ [a]).dropWhile p = r ++ [a] := by
  intro m
  induction m with
  | nil => exact ⟨[], by simp [List.dropWhile_cons, h]⟩
  | cons b m' ih =>
    by_cases hb : p b = true
    · obtain ⟨r, hr⟩ := ih
      exact ⟨r, by simp [List.dropWhile_cons, hb, hr]⟩
    · exact ⟨b :: m' , by simp [List.dropWhile_cons, hb]⟩

theorem rdropWhile_cons_of_neg {p : Char → Bool} {a : Char} (l : List Char)
    (h : p a = false) : ∃ u, List.rdropWhile p (a :: l) = a :: u := by
  obtain ⟨r, hr⟩ := dropWhile_keep_concat h l.reverse
  refine ⟨r.reverse, ?_⟩
  unfold List.rdropWhile
  rw [show (a :: l).reverse = l.reverse ++ [a] by simp, hr]
  simp

theorem stripWs_cons_ws {c : Char} (h : isJsonWs c = true) (l : List Char) :
    stripWs (c :: l) = stripWs l := by
  simp [stripWs, List.dropWhile_cons, h]

theorem stripWs_concat_ws {c : Char} (h : isJsonWs c = true) (l : List Char) :
    stripWs (l ++ [c]) = stripWs l := by
  unfold stripWs
  rw [List.dropWhile_append]
  by_cases he : (l.dropWhile isJsonWs).isEmpty = true
  · rw [if_pos he]
    rw [List.isEmpty_iff] at he
    rw [he, List.rdropWhile_nil]
    simp [List.dropWhile_cons, h, List.rdropWhile_nil]
  · rw [if_neg he]
    exact List.rdropWhile_concat_pos _ _ _ h

theorem stripWs_idem (l : List Char) : stripWs (stripWs l) = stripWs l := by
  unfold stripWs
  have hin : List.dropWhile isJsonWs (List.rdropWhile isJsonWs (List.dropWhile isJsonWs l)) =
      List.rdropWhile isJsonWs (List.dropWhile isJsonWs l) := by
    cases hd : List.rdropWhile isJsonWs (List.dropWhile isJsonWs l) with
    | nil => simp
    | cons a u =>
      have ha : isJsonWs a = false := by
        cases hdw : List.dropWhile isJsonWs l with
        | nil => rw [hdw, List.rdropWhile_nil] at hd; exact absurd hd (by simp)
        | cons b t =>
          have hb : isJsonWs b = false := dropWhile_head_false _ hdw
          obtain ⟨u', hu'⟩ := rdropWhile_cons_of_neg t hb
          rw [hdw, hu'] at hd
          cases hd
          exact hb
      rw [List.dropWhile_cons, ha]
      simp
  rw [hin, List.rdropWhile_idempotent]

theorem stripWs_of_ends {a b : Char} (m : List Char)
    (ha : isJsonWs a = false) (hb : isJsonWs b = false) :
    stripWs (a :: m ++ [b]) = a :: m ++ [b] := by
  unfold stripWs
  rw [show a :: m ++ [b] = (a :: m) ++ [b] from rfl]
  rw [List.dropWhile_append]
  have h1 : (a :: m).dropWhile isJsonWs = a :: m := by
    rw [List.dropWhile_cons, ha]
    simp
  rw [h1]
  simp only [List.isEmpty_cons, if_false, Bool.false_eq_true]
  exact List.rdropWhile_concat_neg _ _ _ (by simp [hb])

/-! ## Boolean prefix and suffix facts -/

theorem isPrefixOf_append_self (l m : List Char) : l.isPrefixOf (l ++ m) = true := by
  induction l with
  | nil => cases m <;> rfl
  | cons a as ih => simp [List.isPrefixOf, ih]

theorem isSuffixOf_append_self (l m : List Char) : m.isSuffixOf (l ++ m) = true := by
  simp only [List.isSuffixOf, List.reverse_append]
  exact isPrefixOf_append_self m.reverse l.reverse

theorem isPrefixOf_cons_false {a b : Char} (as bs : List Char) (hne : (a == b) = false) :
    (a :: as).isPrefixOf (b :: bs) = false := by
  simp [List.isPrefixOf, hne]

theorem isPrefixOf_cons_step {a : Char} (as bs : List Char) :
    (a :: as).isPrefixOf (a :: bs) = as.isPrefixOf bs := by
  simp [List.isPrefixOf]

theorem fence_not_suffixOf_brace (p : List Char) :
    ("```".data).isSuffixOf (p ++ ['}']) = false := by
  simp only [List.isSuffixOf, List.reverse_append]
  rw [show ("```".data).reverse = btk :: [btk, btk] from by decide,
    show (['}'] : List Char).reverse ++ p.reverse = '}' :: p.reverse from by simp]
  exact isPrefixOf_cons_false _ _ (by decide)

/-! ## Consumption lemmas: each token parser returns a suffix of its input -/

theorem readHex4_consumed {l : List Char} {n : Nat} {r : List Char}
    (h : readHex4 l = some (n, r)) : ∃ a b c d, l = a :: b :: c :: d :: r := by
  cases l with
  | nil => exact absurd h (by simp [readHex4])
  | cons a l1 =>
    cases l1 with
    | nil => exact absurd h (by simp [readHex4])
    | cons b l2 =>
      cases l2 with
      | nil => exact absurd h (by simp [readHex4])
      | cons c l3 =>
        cases l3 with
        | nil => exact absurd h (by simp [readHex4])
        | cons d rest =>
          refine ⟨a, b, c, d, ?_⟩
          simp only [readHex4] at h
          split at h
          · simp only [Option.some.injEq, Prod.mk.injEq] at h
            rw [h.2]
          · exact absurd h (by simp)

theorem parseIntPart_eq {l ip l2 : List Char} (h : parseIntPart l = some (ip, l2)) :
    l = ip ++ l2 := by
  cases l with
  | nil => exact absurd h (by simp [parseIntPart])
  | cons c rest =>
    simp only [parseIntPart] at h
    by_cases h0 : c = '0'
    · rw [if_pos h0] at h
      simp only [Option.some.injEq, Prod.mk.injEq] at h
      rw [← h.1, ← h.2, h0]
      rfl
    · rw [if_neg h0] at h
      by_cases hd : c.isDigit = true
      · rw [if_pos hd] at h
        simp only [Option.some.injEq, Prod.mk.injEq] at h
        rw [← h.1, ← h.2]
        simp [digitSpan]
      · rw [if_neg hd] at h
        exact absurd h (by simp)

theorem parseFracPart_eq (l : List Char) :
    (parseFracPart l).1 ++ (parseFracPart l).2 = l := by
  unfold parseFracPart
  split
  · split
    · simp
    · simp [digitSpan]
  · simp

theorem parseExpPart_eq (l : List Char) :
    (parseExpPart l).1 ++ (parseExpPart l).2 = l := by
  unfold parseExpPart
  split
  · split
    · split
      · split
        · simp
        · simp [digitSpan]
      · split
        · simp
        · simp [digitSpan]
    · simp
  · simp
  · simp

theorem parseNumber_eq {l lx r : List Char} (h : parseNumber l = some (lx, r)) :
    l = lx ++ r := by
  unfold parseNumber at h
  split at h
  · next l1 =>
    cases hip : parseIntPart l1 with
    | none => rw [hip] at h; exact absurd h (by simp)
    | some p =>
      obtain ⟨ip, l2⟩ := p
      rw [hip] at h
      simp only [Option.some.injEq, Prod.mk.injEq] at h
      have hl1 : l1 = ip ++ l2 := parseIntPart_eq hip
      have hf := parseFracPart_eq l2
      have he := parseExpPart_eq (parseFracPart l2).2
      have key : ('-' :: ip ++ (parseFracPart l2).1 ++ (parseExpPart (parseFracPart l2).2).1) ++
          (parseExpPart (parseFracPart l2).2).2 = '-' :: (ip ++ l2) := by
        simp only [List.cons_append, List.append_assoc]
        rw [he, hf]
      rw [← h.1, ← h.2, hl1]
      exact key.symm
  · cases hip : parseIntPart l with
    | none => rw [hip] at h; exact absurd h (by simp)
    | some p =>
      obtain ⟨ip, l2⟩ := p
      rw [hip] at h
      simp only [Option.some.injEq, Prod.mk.injEq] at h
      have hl : l = ip ++ l2 := parseIntPart_eq hip
      have hf := parseFracPart_eq l2
      have he := parseExpPart_eq (parseFracPart l2).2
      have key : (ip ++ (parseFracPart l2).1 ++ (parseExpPart (parseFracPart l2).2).1) ++
          (parseExpPart (parseFracPart l2).2).2 = ip ++ l2 := by
        simp only [List.append_assoc]
        rw [he, hf]
      rw [← h.1, ← h.2, hl]
      exact key.symm

theorem parseStringBody_consumed :
    ∀ (f : Nat) (l s r : List Char), parseStringBody f l = some (s, r) → ∃ c, l = c ++ r := by
  intro f
  induction f with
  | zero => intro l s r h; exact absurd h (by simp [parseStringBody])
  | succ f ih =>
    intro l s r h
    cases l with
    | nil => exact absurd h (by simp [parseStringBody])
    | cons c cs =>
      have step : ∀ (X : List Char) (ch : Char) (P : List Char), c :: cs = P ++ X →
          (parseStringBody f X).map (fun p => (ch :: p.1, p.2)) = some (s, r) →
          ∃ cc, c :: cs = cc ++ r := by
        intro X ch P hPX hmap
        simp only [Option.map_eq_some'] at hmap
        obtain ⟨⟨s1, r1⟩, hp, hg⟩ := hmap
        obtain ⟨c0, hc0⟩ := ih X s1 r1 hp
        simp only [Prod.mk.injEq] at hg
        refine ⟨P ++ c0, ?_⟩
        rw [hPX, hc0, ← hg.2]
        simp
      simp only [parseStringBody] at h
      by_cases hq : c = '"'
      · rw [if_pos hq] at h
        simp only [Option.some.injEq, Prod.mk.injEq] at h
        exact ⟨[c], by simp [h.2]⟩
      · rw [if_neg hq] at h
        by_cases hb : c = '\\'
        · rw [if_pos hb] at h
          split at h
          · exact absurd h (by simp)
          · next e es =>
            by_cases h1 : e = '"'
            · rw [if_pos h1] at h
              exact step es _ [c, e] rfl h
            · rw [if_neg h1] at h
              by_cases h2 : e = '\\'
              · rw [if_pos h2] at h
                exact step es _ [c, e] rfl h
              · rw [if_neg h2] at h
                by_cases h3 : e = '/'
                · rw [if_pos h3] at h
                  exact step es _ [c, e] rfl h
                · rw [if_neg h3] at h
                  by_cases h4 : e = 'b'
                  · rw [if_pos h4] at h
                    exact step es _ [c, e] rfl h
                  · rw [if_neg h4] at h
                    by_cases h5 : e = 'f'
                    · rw [if_pos h5] at h
                      exact step es _ [c, e] rfl h
                    · rw [if_neg h5] at h
                      by_cases h6 : e = 'n'
                      · rw [if_pos h6] at h
                        exact step es _ [c, e] rfl h
                      · rw [if_neg h6] at h
                        by_cases h7 : e = 'r'
                        · rw [if_pos h7] at h
                          exact step es _ [c, e] rfl h
                        · rw [if_neg h7] at h
                          by_cases h8 : e = 't'
                          · rw [if_pos h8] at h
                            exact step es _ [c, e] rfl h
                          · rw [if_neg h8] at h
                            by_cases h9 : e = 'u'
                            · rw [if_pos h9] at h
                              split at h
                              · exact absurd h (by simp)
                              · next n rest heq =>
                                obtain ⟨a, b, c2, d, hes⟩ := readHex4_consumed heq
                                by_cases hsur : 0xD800 ≤ n ∧ n ≤ 0xDBFF
                                · rw [if_pos hsur] at h
                                  split at h
                                  · next rest2 =>
                                    split at h
                                    · next m rest3 heq2 =>
                                      obtain ⟨a2, b2, c3, d2, hr2⟩ := readHex4_consumed heq2
                                      by_cases hlow : 0xDC00 ≤ m ∧ m ≤ 0xDFFF
                                      · rw [if_pos hlow] at h
                                        exact step rest3 _
                                          (c :: e :: a :: b :: c2 :: d :: '\\' :: 'u' ::
                                            a2 :: b2 :: c3 :: [d2])
                                          (by simp [hes, hr2]) h
                                      · rw [if_neg hlow] at h
                                        exact step ('\\' :: 'u' :: rest2) _
                                          (c :: e :: a :: b :: c2 :: [d]) (by simp [hes]) h
                                    · exact step ('\\' :: 'u' :: rest2) _
                                        (c :: e :: a :: b :: c2 :: [d]) (by simp [hes]) h
                                  · exact step rest _
                                      (c :: e :: a :: b :: c2 :: [d]) (by simp [hes]) h
                                · rw [if_neg hsur] at h
                                  exact step rest _
                                    (c :: e :: a :: b :: c2 :: [d]) (by simp [hes]) h
                            · rw [if_neg h9] at h
                              exact absurd h (by simp)
        · rw [if_neg hb] at h
          by_cases hctl : c.toNat < 0x20
          · rw [if_pos hctl] at h
            exact absurd h (by simp)
          · rw [if_neg hctl] at h
            exact step cs _ [c] rfl h

theorem parseValue_head_none (f : Nat) (c : Char) (cs : List Char)
    (h1 : c ≠ '{') (h2 : c ≠ '[') (h3 : c ≠ '"') (h4 : c ≠ 't') (h5 : c ≠ 'f')
    (h6 : c ≠ 'n') (h7 : c ≠ 'N') (h8 : c ≠ 'I') (h9 : c ≠ '-')
    (h10 : c.isDigit = false) :
    parseValue f (c :: cs) = none := by
  cases f with
  | zero => rfl
  | succ f =>
    simp only [parseValue]
    simp [h1, h2, h3, h4, h5, h6, h7, h8, h9, h10]

theorem skipWs_split (l : List Char) : ∃ w, l = w ++ skipWs l :=
  ⟨l.takeWhile isJsonWs, (List.takeWhile_append_dropWhile isJsonWs l).symm⟩

theorem consumeAll : ∀ f : Nat,
    (∀ l v r, parseValue f l = some (v, r) → ∃ c, l = c ++ r) ∧
    (∀ l kvs r, parseMembersStart f l = some (kvs, r) → ∃ p, l = p ++ '}' :: r) ∧
    (∀ l kvs r, parseMembers f l = some (kvs, r) → ∃ p, l = p ++ '}' :: r) ∧
    (∀ l es r, parseElemsStart f l = some (es, r) → ∃ p, l = p ++ ']' :: r) ∧
    (∀ l es r, parseElems f l = some (es, r) → ∃ p, l = p ++ ']' :: r) := by
  intro f
  induction f with
  | zero =>
    refine ⟨?_, ?_, ?_, ?_, ?_⟩ <;> intro l x r h <;>
      exact absurd h (by
        simp [parseValue, parseMembersStart, parseMembers, parseElemsStart, parseElems])
  | succ f ih =>
    obtain ⟨ihV, ihMS, ihM, ihES, ihE⟩ := ih
    refine ⟨?_, ?_, ?_, ?_, ?_⟩
    · -- parseValue
      intro l v r h
      cases l with
      | nil => exact absurd h (by simp [parseValue])
      | cons c cs =>
        simp only [parseValue] at h
        by_cases g1 : c = '{'
        · rw [if_pos g1] at h
          split at h
          · next kvs r1 heq =>
            simp only [Option.some.injEq, Prod.mk.injEq] at h
            obtain ⟨p, hp⟩ := ihMS cs kvs r1 heq
            exact ⟨c :: p ++ ['}'], by rw [← h.2, hp]; simp⟩
          · exact absurd h (by simp)
        · rw [if_neg g1] at h
          by_cases g2 : c = '['
          · rw [if_pos g2] at h
            split at h
            · next es r1 heq =>
              simp only [Option.some.injEq, Prod.mk.injEq] at h
              obtain ⟨p, hp⟩ := ihES cs es r1 heq
              exact ⟨c :: p ++ [']'], by rw [← h.2, hp]; simp⟩
            · exact absurd h (by simp)
          · rw [if_neg g2] at h
            by_cases g3 : c = '"'
            · rw [if_pos g3] at h
              split at h
              · next sb r1 heq =>
                simp only [Option.some.injEq, Prod.mk.injEq] at h
                obtain ⟨c0, hc0⟩ := parseStringBody_consumed (cs.length + 1) cs sb r1 heq
                exact ⟨c :: c0, by rw [← h.2, hc0]; simp⟩
              · exact absurd h (by simp)
            · rw [if_neg g3] at h
              by_cases g4 : c = 't'
              · rw [if_pos g4] at h
                by_cases ht : cs.take 3 = ['r', 'u', 'e']
                · rw [if_pos ht] at h
                  simp only [Option.some.injEq, Prod.mk.injEq] at h
                  exact ⟨c :: cs.take 3, by rw [← h.2]; simp [List.take_append_drop]⟩
                · rw [if_neg ht] at h
                  exact absurd h (by simp)
              · rw [if_neg g4] at h
                by_cases g5 : c = 'f'
                · rw [if_pos g5] at h
                  by_cases ht : cs.take 4 = ['a', 'l', 's', 'e']
                  · rw [if_pos ht] at h
                    simp only [Option.some.injEq, Prod.mk.injEq] at h
                    exact ⟨c :: cs.take 4, by rw [← h.2]; simp [List.take_append_drop]⟩
                  · rw [if_neg ht] at h
                    exact absurd h (by simp)
                · rw [if_neg g5] at h
                  by_cases g6 : c = 'n'
                  · rw [if_pos g6] at h
                    by_cases ht : cs.take 3 = ['u', 'l', 'l']
                    · rw [if_pos ht] at h
                      simp only [Option.some.injEq, Prod.mk.injEq] at h
                      exact ⟨c :: cs.take 3, by rw [← h.2]; simp [List.take_append_drop]⟩
                    · rw [if_neg ht] at h
                      exact absurd h (by simp)
                  · rw [if_neg g6] at h
                    by_cases g7 : c = 'N'
                    · rw [if_pos g7] at h
                      by_cases ht : cs.take 2 = ['a', 'N']
                      · rw [if_pos ht] at h
                        simp only [Option.some.injEq, Prod.mk.injEq] at h
                        exact ⟨c :: cs.take 2, by rw [← h.2]; simp [List.take_append_drop]⟩
                      · rw [if_neg ht] at h
                        exact absurd h (by simp)
                    · rw [if_neg g7] at h
                      by_cases g8 : c = 'I'
                      · rw [if_pos g8] at h
                        by_cases ht : cs.take 7 = ['n', 'f', 'i', 'n', 'i', 't', 'y']
                        · rw [if_pos ht] at h
                          simp only [Option.some.injEq, Prod.mk.injEq] at h
                          exact ⟨c :: cs.take 7, by rw [← h.2]; simp [List.take_append_drop]⟩
                        · rw [if_neg ht] at h
                          exact absurd h (by simp)
                      · rw [if_neg g8] at h
                        by_cases g9 : c = '-' ∧ cs.take 8 = ['I', 'n', 'f', 'i', 'n', 'i', 't', 'y']
                        · rw [if_pos g9] at h
                          simp only [Option.some.injEq, Prod.mk.injEq] at h
                          exact ⟨c :: cs.take 8, by rw [← h.2]; simp [List.take_append_drop]⟩
                        · rw [if_neg g9] at h
                          by_cases g10 : c = '-' ∨ c.isDigit = true
                          · rw [if_pos g10] at h
                            split at h
                            · next lx r1 heq =>
                              simp only [Option.some.injEq, Prod.mk.injEq] at h
                              exact ⟨lx, by rw [← h.2]; exact parseNumber_eq heq⟩
                            · exact absurd h (by simp)
                          · rw [if_neg g10] at h
                            exact absurd h (by simp)
    · -- parseMembersStart
      intro l kvs r h
      simp only [parseMembersStart] at h
      obtain ⟨w, hw⟩ := skipWs_split l
      split at h
      · next r1 heq =>
        simp only [Option.some.injEq, Prod.mk.injEq] at h
        rw [heq] at hw
        exact ⟨w, by rw [← h.2]; exact hw⟩
      · obtain ⟨p, hp⟩ := ihM (skipWs l) kvs r h
        rw [hp] at hw
        exact ⟨w ++ p, by rw [hw]; simp⟩
    · -- parseMembers
      intro l kvs r h
      simp only [parseMembers] at h
      split at h
      · next cs =>
        split at h
        · next k r1 heq1 =>
          obtain ⟨c1, hc1⟩ := parseStringBody_consumed (cs.length + 1) cs k r1 heq1
          split at h
          · next r3 heq2 =>
            split at h
            · next v r4 heq3 =>
              obtain ⟨c2, hc2⟩ := ihV (skipWs r3) v r4 heq3
              obtain ⟨w1, hw1⟩ := skipWs_split r1
              rw [heq2] at hw1
              obtain ⟨w3, hw3⟩ := skipWs_split r3
              rw [hc2] at hw3
              split at h
              · next r6 heq4 =>
                split at h
                · next kvs2 r7 heq5 =>
                  simp only [Option.some.injEq, Prod.mk.injEq] at h
                  obtain ⟨p2, hp2⟩ := ihM (skipWs r6) kvs2 r7 heq5
                  obtain ⟨w4, hw4⟩ := skipWs_split r4
                  rw [heq4] at hw4
                  obtain ⟨w6, hw6⟩ := skipWs_split r6
                  rw [hp2] at hw6
                  exact ⟨'"' :: c1 ++ w1 ++ ':' :: w3 ++ c2 ++ w4 ++ ',' :: w6 ++ p2,
                    by rw [← h.2, hc1, hw1, hw3, hw4, hw6]; simp⟩
                · exact absurd h (by simp)
              · next r6 heq4 =>
                simp only [Option.some.injEq, Prod.mk.injEq] at h
                obtain ⟨w4, hw4⟩ := skipWs_split r4
                rw [heq4] at hw4
                exact ⟨'"' :: c1 ++ w1 ++ ':' :: w3 ++ c2 ++ w4,
                  by rw [← h.2, hc1, hw1, hw3, hw4]; simp⟩
              · exact absurd h (by simp)
            · exact absurd h (by simp)
          · exact absurd h (by simp)
        · exact absurd h (by simp)
      · exact absurd h (by simp)
    · -- parseElemsStart
      intro l es r h
      simp only [parseElemsStart] at h
      obtain ⟨w, hw⟩ := skipWs_split l
      split at h
      · next r1 heq =>
        simp only [Option.some.injEq, Prod.mk.injEq] at h
        rw [heq] at hw
        exact ⟨w, by rw [← h.2]; exact hw⟩
      · obtain ⟨p, hp⟩ := ihE (skipWs l) es r h
        rw [hp] at hw
        exact ⟨w ++ p, by rw [hw]; simp⟩
    · -- parseElems
      intro l es r h
      simp only [parseElems] at h
      split at h
      · next v r0 heq0 =>
        obtain ⟨c0, hc0⟩ := ihV l v r0 heq0
        obtain ⟨w0, hw0⟩ := skipWs_split r0
        split at h
        · next r3 heq1 =>
          split at h
          · next vs r4 heq2 =>
            simp only [Option.some.injEq, Prod.mk.injEq] at h
            obtain ⟨p1, hp1⟩ := ihE (skipWs r3) vs r4 heq2
            rw [heq1] at hw0
            obtain ⟨w3, hw3⟩ := skipWs_split r3
            rw [hp1] at hw3
            exact ⟨c0 ++ w0 ++ ',' :: w3 ++ p1, by rw [← h.2, hc0, hw0, hw3]; simp⟩
          · exact absurd h (by simp)
        · next r3 heq1 =>
          simp only [Option.some.injEq, Prod.mk.injEq] at h
          rw [heq1] at hw0
          exact ⟨c0 ++ w0, by rw [← h.2, hc0, hw0]; simp⟩
        · exact absurd h (by simp)
      · exact absurd h (by simp)

theorem parseValue_obj_shape {f : Nat} {l : List Char} {kvs : List (String × J)}
    (h : parseValue f l = some (J.obj kvs, [])) : ∃ p, l = '{' :: p ++ ['}'] := by
  cases f with
  | zero => exact absurd h (by simp [parseValue])
  | succ f =>
    cases l with
    | nil => exact absurd h (by simp [parseValue])
    | cons c cs =>
      simp only [parseValue] at h
      by_cases g1 : c = '{'
      · rw [if_pos g1] at h
        split at h
        · next kvs1 r1 heq =>
          simp only [Option.some.injEq, Prod.mk.injEq, J.obj.injEq] at h
          obtain ⟨p, hp⟩ := (consumeAll f).2.1 cs kvs1 r1 heq
          refine ⟨p, ?_⟩
          rw [g1, hp, h.2]
          simp
        · exact absurd h (by simp)
      · rw [if_neg g1] at h
        by_cases g2 : c = '['
        · rw [if_pos g2] at h
          split at h
          · exact absurd h (by simp)
          · exact absurd h (by simp)
        · rw [if_neg g2] at h
          by_cases g3 : c = '"'
          · rw [if_pos g3] at h
            split at h
            · exact absurd h (by simp)
            · exact absurd h (by simp)
          · rw [if_neg g3] at h
            by_cases g4 : c = 't'
            · rw [if_pos g4] at h
              by_cases ht : cs.take 3 = ['r', 'u', 'e']
              · rw [if_pos ht] at h
                exact absurd h (by simp)
              · rw [if_neg ht] at h
                exact absurd h (by simp)
            · rw [if_neg g4] at h
              by_cases g5 : c = 'f'
              · rw [if_pos g5] at h
                by_cases ht : cs.take 4 = ['a', 'l', 's', 'e']
                · rw [if_pos ht] at h
                  exact absurd h (by simp)
                · rw [if_neg ht] at h
                  exact absurd h (by simp)
              · rw [if_neg g5] at h
                by_cases g6 : c = 'n'
                · rw [if_pos g6] at h
                  by_cases ht : cs.take 3 = ['u', 'l', 'l']
                  · rw [if_pos ht] at h
                    exact absurd h (by simp)
                  · rw [if_neg ht] at h
                    exact absurd h (by simp)
                · rw [if_neg g6] at h
                  by_cases g7 : c = 'N'
                  · rw [if_pos g7] at h
                    by_cases ht : cs.take 2 = ['a', 'N']
                    · rw [if_pos ht] at h
                      exact absurd h (by simp)
                    · rw [if_neg ht] at h
                      exact absurd h (by simp)
                  · rw [if_neg g7] at h
                    by_cases g8 : c = 'I'
                    · rw [if_pos g8] at h
                      by_cases ht : cs.take 7 = ['n', 'f', 'i', 'n', 'i', 't', 'y']
                      · rw [if_pos ht] at h
                        exact absurd h (by simp)
                      · rw [if_neg ht] at h
                        exact absurd h (by simp)
                    · rw [if_neg g8] at h
                      by_cases g9 : c = '-' ∧ cs.take 8 = ['I', 'n', 'f', 'i', 'n', 'i', 't', 'y']
                      · rw [if_pos g9] at h
                        exact absurd h (by simp)
                      · rw [if_neg g9] at h
                        by_cases g10 : c = '-' ∨ c.isDigit = true
                        · rw [if_pos g10] at h
                          split at h
                          · exact absurd h (by simp)
                          · exact absurd h (by simp)
                        · rw [if_neg g10] at h
                          exact absurd h (by simp)

theorem jsonLoads_some_inv {l : List Char} {v : J} (h : jsonLoads l = some v) :
    parseValue (3 * (stripWs l).length + 3) (stripWs l) = some (v, []) := by
  unfold jsonLoads at h
  split at h
  · next v1 heq =>
    simp only [Option.some.injEq] at h
    rw [← h]
    exact heq
  · exact absurd h (by simp)

/-- C4: wrapping a JSON body that decodes to a four-field record in the
`'```json'`-tagged fence (with newlines) gives the same parsed record as the
bare body: fence stripping plus the decoder's whitespace handling make the two
inputs decode identically. -/
theorem c4_fence_equivalence (B : List Char) (currentDay currentDate : String)
    (kvs : List (String × J))
    (hdec : jsonLoads B = some (J.obj kvs))
    (_hkeys : List.Perm (kvs.map Prod.fst) requiredKeys) :
    parseOrFallback ("```json\n".data ++ B ++ "\n```".data) currentDay currentDate =
      parseOrFallback B currentDay currentDate := by
  have hpv := jsonLoads_some_inv hdec
  obtain ⟨p, hp⟩ := parseValue_obj_shape hpv
  have hfence1 : ("```json".data).isPrefixOf (stripWs B) = false := by
    rw [hp, show "```json".data = btk :: "``json".data from by decide]
    exact isPrefixOf_cons_false _ _ (by decide)
  have hfence2 : ("```".data).isSuffixOf (stripWs B) = false := by
    rw [hp, show '{' :: p ++ ['}'] = ('{' :: p) ++ ['}'] from rfl]
    exact fence_not_suffixOf_brace _
  have hsrt : stripResponseText B = stripWs B := by
    simp only [stripResponseText, hfence1, hfence2, Bool.false_eq_true, if_false]
  have hjl : jsonLoads (stripWs B) = some (J.obj kvs) := by
    unfold jsonLoads
    rw [stripWs_idem, hpv]
  have hbare : parseOrFallback B currentDay currentDate = J.obj kvs := by
    unfold parseOrFallback
    rw [hsrt, hjl]
  have hshape : "```json\n".data ++ B ++ "\n```".data =
      btk :: ("``json\n".data ++ B ++ "\n``".data ++ [btk]) := by
    rw [show "```json\n".data = btk :: "``json\n".data from by decide,
      show "\n```".data = "\n``".data ++ [btk] from by decide]
    simp
  have hstrip : stripWs ("```json\n".data ++ B ++ "\n```".data) =
      "```json\n".data ++ B ++ "\n```".data := by
    rw [hshape]
    exact stripWs_of_ends _ (by decide) (by decide)
  have hpre : ("```json".data).isPrefixOf ("```json\n".data ++ B ++ "\n```".data) = true := by
    rw [show "```json\n".data ++ B ++ "\n```".data =
      "```json".data ++ (['\n'] ++ B ++ "\n```".data) from by
        rw [show "```json\n".data = "```json".data ++ ['\n'] from by decide]; simp]
    exact isPrefixOf_append_self _ _
  have hdrop : ("```json\n".data ++ B ++ "\n```".data).drop 7 = ['\n'] ++ B ++ "\n```".data := by
    rw [show "```json\n".data ++ B ++ "\n```".data =
      "```json".data ++ (['\n'] ++ B ++ "\n```".data) from by
        rw [show "```json\n".data = "```json".data ++ ['\n'] from by decide]; simp]
    exact List.drop_left' (by decide)
  have hsuf : ("```".data).isSuffixOf (['\n'] ++ B ++ "\n```".data) = true := by
    rw [show ['\n'] ++ B ++ "\n```".data = (['\n'] ++ B ++ ['\n']) ++ "```".data from by
      rw [show "\n```".data = ['\n'] ++ "```".data from by decide]; simp]
    exact isSuffixOf_append_self _ _
  have htake : (['\n'] ++ B ++ "\n```".data).take ((['\n'] ++ B ++ "\n```".data).length - 3) =
      ['\n'] ++ B ++ ['\n'] := by
    rw [show ['\n'] ++ B ++ "\n```".data = (['\n'] ++ B ++ ['\n']) ++ "```".data from by
      rw [show "\n```".data = ['\n'] ++ "```".data from by decide]; simp]
    rw [List.length_append, show ("```".data).length = 3 from by decide, Nat.add_sub_cancel]
    exact List.take_left _ _
  have hsrtF : stripResponseText ("```json\n".data ++ B ++ "\n```".data) =
      ['\n'] ++ B ++ ['\n'] := by
    simp only [stripResponseText, hstrip, hpre, if_true, hdrop, hsuf, htake]
  have hstripY : stripWs (['\n'] ++ B ++ ['\n']) = stripWs B := by
    rw [show ['\n'] ++ B ++ ['\n'] = '\n' :: (B ++ ['\n']) from by simp]
    rw [stripWs_cons_ws (by decide), stripWs_concat_ws (by decide)]
  have hjlY : jsonLoads (['\n'] ++ B ++ ['\n']) = some (J.obj kvs) := by
    unfold jsonLoads
    rw [hstripY, hpv]
  have hfenced : parseOrFallback ("```json\n".data ++ B ++ "\n```".data)
      currentDay currentDate = J.obj kvs := by
    unfold parseOrFallback
    rw [hsrtF, hjlY]
  rw [hfenced, hbare]

/-- C4 witness: `c4_fence_equivalence` discharged at the concrete four-field
body of the spec's scenario. -/
theorem c4_witness :
    jsonLoads ("\x7b\"daily_verse\":\"John 3:16\",\"daily_devotional\":\"God loves\",\"prayer_guide\":\"Thank you\",\"religious_insight\":\"Grace\"\x7d").data =
      some (J.obj [("daily_verse", J.str "John 3:16"), ("daily_devotional", J.str "God loves"),
        ("prayer_guide", J.str "Thank you"), ("religious_insight", J.str "Grace")]) ∧
    parseOrFallback ("```json\n".data ++
        ("\x7b\"daily_verse\":\"John 3:16\",\"daily_devotional\":\"God loves\",\"prayer_guide\":\"Thank you\",\"religious_insight\":\"Grace\"\x7d").data ++
        "\n```".data) "Sunday" "2024-06-02" =
      parseOrFallback ("\x7b\"daily_verse\":\"John 3:16\",\"daily_devotional\":\"God loves\",\"prayer_guide\":\"Thank you\",\"religious_insight\":\"Grace\"\x7d").data
        "Sunday" "2024-06-02" := by
  refine ⟨rfl, ?_⟩
  exact c4_fence_equivalence _ "Sunday" "2024-06-02"
    [("daily_verse", J.str "John 3:16"), ("daily_devotional", J.str "God loves"),
      ("prayer_guide", J.str "Thank you"), ("religious_insight", J.str "Grace")]
    rfl (by decide)

/-- C5 amended: only the `'```json'` opening marker is removed; a bare
`'```'` opening fence is left in place, so for every body the bare-fenced
input fails to decode and the parser returns the fallback record. -/
theorem c5_amended_bare_fence (B : List Char) (currentDay currentDate : String) :
    parseOrFallback ("```\n".data ++ B ++ "\n```".data) currentDay currentDate =
      fallbackContent currentDay currentDate := by
  have hshape : "```\n".data ++ B ++ "\n```".data =
      btk :: ("``\n".data ++ B ++ "\n``".data ++ [btk]) := by
    rw [show "```\n".data = btk :: "``\n".data from by decide,
      show "\n```".data = "\n``".data ++ [btk] from by decide]
    simp
  have hstrip : stripWs ("```\n".data ++ B ++ "\n```".data) =
      "```\n".data ++ B ++ "\n```".data := by
    rw [hshape]
    exact stripWs_of_ends _ (by decide) (by decide)
  have hpre : ("```json".data).isPrefixOf ("```\n".data ++ B ++ "\n```".data) = false := by
    rw [show "```\n".data ++ B ++ "\n```".data =
      btk :: btk :: btk :: '\n' :: (B ++ "\n```".data) from by
        rw [show "```\n".data = btk :: btk :: btk :: ['\n'] from by decide]; simp]
    rw [show "```json".data = btk :: btk :: btk :: 'j' :: "son".data from by decide]
    rw [isPrefixOf_cons_step, isPrefixOf_cons_step, isPrefixOf_cons_step]
    exact isPrefixOf_cons_false _ _ (by decide)
  have hsuf : ("```".data).isSuffixOf ("```\n".data ++ B ++ "\n```".data) = true := by
    rw [show "```\n".data ++ B ++ "\n```".data =
      ("```\n".data ++ B ++ ['\n']) ++ "```".data from by
        rw [show "\n```".data = ['\n'] ++ "```".data from by decide]; simp]
    exact isSuffixOf_append_self _ _
  have htake : ("```\n".data ++ B ++ "\n```".data).take
      (("```\n".data ++ B ++ "\n```".data).length - 3) = "```\n".data ++ B ++ ['\n'] := by
    rw [show "```\n".data ++ B ++ "\n```".data =
      ("```\n".data ++ B ++ ['\n']) ++ "```".data from by
        rw [show "\n```".data = ['\n'] ++ "```".data from by decide]; simp]
    rw [List.length_append, show ("```".data).length = 3 from by decide, Nat.add_sub_cancel]
    exact List.take_left _ _
  have hsrt : stripResponseText ("```\n".data ++ B ++ "\n```".data) =
      "```\n".data ++ B ++ ['\n'] := by
    simp only [stripResponseText, hstrip, hpre, Bool.false_eq_true, if_false, hsuf,
      if_true, htake]
  have hhead : ∃ u, stripWs ("```\n".data ++ B ++ ['\n']) = btk :: u := by
    rw [show "```\n".data ++ B ++ ['\n'] = btk :: ("``\n".data ++ B ++ ['\n']) from by
      rw [show "```\n".data = btk :: "``\n".data from by decide]; simp]
    unfold stripWs
    rw [List.dropWhile_cons, show isJsonWs btk = false from by decide]
    simp only [Bool.false_eq_true, if_false]
    exact rdropWhile_cons_of_neg _ (by decide)
  obtain ⟨u, hu⟩ := hhead
  have hjl : jsonLoads ("```\n".data ++ B ++ ['\n']) = none := by
    unfold jsonLoads
    rw [hu, parseValue_head_none _ btk u (by decide) (by decide) (by decide) (by decide)
      (by decide) (by decide) (by decide) (by decide) (by decide) (by decide)]
  unfold parseOrFallback
  rw [hsrt, hjl]
